import Mathlib

/-!
# Lock table and upload path of `lustre_minio_gateway.cpp`

A shallow embedding of the three functions `acquireFileLock`, `releaseFileLock`
and `uploadFileToMinIO` of `src/lustre_minio_gateway.cpp`.

* The global `std::unordered_map<std::string, bool> fileLocks` is an association
  list of (name, flag) pairs that is passed explicitly.  The functions below do
  not require the list to have distinct keys; `LockTable.WF` states that property
  and it is shown to be preserved.
* `operator[]` of the map is embedded as in C++: looking a key up through it
  inserts a value-initialised (`false`) entry when the key is absent.
* The file system and the `miniocpp::Client` class are not part of the
  repository.  They are parameters (`Env`): what opening a path gives, and
  whether the constructor and `put_object` return or throw.
* Calls are executed one after the other (the mutex `fileLockMutex` serialises
  the bodies of `acquireFileLock` and `releaseFileLock`; it carries no data).
-/

namespace LustreMinioGateway

/-! ## Constants (lines 20-27) -/

def LUSTRE_MOUNT_POINT : String := "/"
def MINIO_ENDPOINT : String := "http://255.255.255.0:9000"
def MINIO_ACCESS_KEY : String := "access-key"
def MINIO_SECRET_KEY : String := "secret-key"
def S3_BUCKET_NAME : String := "bucket-name"

/-! ## The lock table (line 31) -/

/-- The contents of `fileLocks`: the entries of the map, one pair per key. -/
abbrev LockTable := List (String × Bool)

namespace LockTable

/-- The table at program start: `fileLocks` is default-constructed. -/
def empty : LockTable := []

/-- The entry stored for `k`, if there is one (`fileLocks.find(k)`). -/
def find : LockTable → String → Option Bool
  | [], _ => none
  | (k', v) :: rest, k => if k' = k then some v else find rest k

/-- Overwrite the value of the entry for `k`; the table is unchanged when `k`
has no entry. -/
def set : LockTable → String → Bool → LockTable
  | [], _, _ => []
  | (k', v') :: rest, k, v =>
    if k' = k then (k', v) :: rest else (k', v') :: set rest k v

/-- The lookup `fileLocks[k]`: when `k` has no entry, a value-initialised entry
`(k, false)` is inserted first.  Returns the table after the lookup and the
value the returned reference denotes. -/
def index (t : LockTable) (k : String) : LockTable × Bool :=
  match t.find k with
  | some v => (t, v)
  | none => (t ++ [(k, false)], false)

/-- The assignment `fileLocks[k] = v`: the lookup `fileLocks[k]` followed by a
store through the returned reference. -/
def assign (t : LockTable) (k : String) (v : Bool) : LockTable :=
  (t.index k).1.set k v

/-- The keys of the table, in list order. -/
def keys (t : LockTable) : List String := t.map Prod.fst

/-- A table that a `std::unordered_map` can hold: no key occurs twice. -/
def WF (t : LockTable) : Prop := t.keys.Nodup

end LockTable

/-- The name `f` is locked: it has an entry and the entry is `true`. -/
def isLocked (t : LockTable) (f : String) : Bool :=
  match t.find f with
  | some true => true
  | _ => false

/-- The name `f` is free: it has no entry, or its entry is `false`. -/
def isFree (t : LockTable) (f : String) : Prop :=
  t.find f = none ∨ t.find f = some false

instance (t : LockTable) (f : String) : Decidable (isFree t f) := by
  unfold isFree; infer_instance

/-! ## `acquireFileLock` and `releaseFileLock` (lines 34-46) -/

/-- Lines 34-41.  Returns the value returned by the C++ function and the table
after the call. -/
def acquireFileLock (t : LockTable) (fileName : String) : Bool × LockTable :=
  let r := t.index fileName            -- if (fileLocks[fileName])
  if r.2 then
    (false, r.1)                       --   return false;
  else
    (true, r.1.assign fileName true)   -- fileLocks[fileName] = true; return true;

/-- Lines 43-46.  Returns the table after the call. -/
def releaseFileLock (t : LockTable) (fileName : String) : LockTable :=
  t.assign fileName false              -- fileLocks[fileName] = false;

/-! ## The collaborators of `uploadFileToMinIO` -/

/-- The bytes of a file (`std::string fileData`), one number below 256 each. -/
abbrev Bytes := List Nat

/-- What a call into code outside the repository can throw: an object derived
from `std::exception`, with its `what()` text, or anything else. -/
inductive Thrown where
  | stdException (what : String)
  | other
  deriving DecidableEq, Repr

/-- The behaviour of the file system and of the `miniocpp::Client` class at the
time of one call of `uploadFileToMinIO`. -/
structure Env where
  /-- The `std::ifstream` opened on a path in binary mode: `none` when
  `is_open()` is false, otherwise the whole content read through `rdbuf()`. -/
  openFile : String → Option Bytes
  /-- The constructor `miniocpp::Client(endpoint, accessKey, secretKey)`. -/
  newClient : String → String → String → Except Thrown Unit
  /-- The member `put_object(bucket, key, data, size)`. -/
  putObject : String → String → Bytes → Nat → Except Thrown Unit

/-- What a run of `uploadFileToMinIO` does that is visible from outside, in
order. -/
inductive Event where
  | acquireFileLock (fileName : String) (result : Bool)
  | releaseFileLock (fileName : String)
  | openFile (path : String)
  | newClient (endpoint accessKey secretKey : String)
  | putObject (bucket key : String) (data : Bytes) (size : Nat)
  /-- A line written to `std::cout` and ended by `std::endl`. -/
  | cout (line : String)
  /-- A line written to `std::cerr` and ended by `std::endl`. -/
  | cerr (line : String)
  deriving DecidableEq, Repr

/-- The event is a call of `put_object`. -/
def Event.isPutObject : Event → Bool
  | .putObject _ _ _ _ => true
  | _ => false

/-- The event is a file being opened. -/
def Event.isOpenFile : Event → Bool
  | .openFile _ => true
  | _ => false

/-- The event is the construction of a client. -/
def Event.isNewClient : Event → Bool
  | .newClient _ _ _ => true
  | _ => false

/-- The event is a call of `releaseFileLock`. -/
def Event.isReleaseFileLock : Event → Bool
  | .releaseFileLock _ => true
  | _ => false

/-- How a call ends: it returns to its caller, or an exception leaves it. -/
inductive Outcome where
  | returned
  | propagated (e : Thrown)
  deriving DecidableEq, Repr

/-- The result of one run of `uploadFileToMinIO`. -/
structure UploadResult where
  table : LockTable
  events : List Event
  outcome : Outcome

/-! ## `uploadFileToMinIO` (lines 49-82) -/

/-- Line 57: `LUSTRE_MOUNT_POINT + "/" + fileName`. -/
def filePath (fileName : String) : String :=
  LUSTRE_MOUNT_POINT ++ "/" ++ fileName

/-- The body of the `try` block, lines 56-76: the events it produces and
whether it completes or throws. -/
def uploadTryBlock (env : Env) (fileName : String) : List Event × Except Thrown Unit :=
  let path := filePath fileName
  match env.openFile path with                   -- std::ifstream file(filePath, ...)
  | none =>                                      -- if (!file.is_open()) throw ...
    ([.openFile path], .error (.stdException ("Unable to open file " ++ path)))
  | some fileData =>                             -- fileContent << file.rdbuf(); ...
    match env.newClient MINIO_ENDPOINT MINIO_ACCESS_KEY MINIO_SECRET_KEY with
    | .error e =>
      ([.openFile path, .newClient MINIO_ENDPOINT MINIO_ACCESS_KEY MINIO_SECRET_KEY], .error e)
    | .ok () =>
      match env.putObject S3_BUCKET_NAME fileName fileData fileData.length with
      | .error e =>
        ([.openFile path, .newClient MINIO_ENDPOINT MINIO_ACCESS_KEY MINIO_SECRET_KEY,
          .putObject S3_BUCKET_NAME fileName fileData fileData.length], .error e)
      | .ok () =>
        ([.openFile path, .newClient MINIO_ENDPOINT MINIO_ACCESS_KEY MINIO_SECRET_KEY,
          .putObject S3_BUCKET_NAME fileName fileData fileData.length,
          .cout ("File " ++ fileName ++ " successfully uploaded to MinIO.")], .ok ())

/-- Lines 49-82. -/
def uploadFileToMinIO (env : Env) (t : LockTable) (fileName : String) : UploadResult :=
  let a := acquireFileLock t fileName
  if a.1 = false then                            -- if (!acquireFileLock(fileName))
    { table := a.2
      events := [.acquireFileLock fileName false,
                 .cerr ("Error: File " ++ fileName ++ " is already locked.")]
      outcome := .returned }
  else
    match uploadTryBlock env fileName with
    | (evs, .ok ()) =>                           -- the try block completed
      { table := releaseFileLock a.2 fileName
        events := .acquireFileLock fileName true :: evs ++ [.releaseFileLock fileName]
        outcome := .returned }
    | (evs, .error (.stdException what)) =>      -- catch (const std::exception &e)
      { table := releaseFileLock a.2 fileName
        events := .acquireFileLock fileName true :: evs ++
          [.cerr ("Error uploading file to MinIO: " ++ what), .releaseFileLock fileName]
        outcome := .returned }
    | (evs, .error .other) =>                    -- no handler: line 81 is not reached
      { table := a.2
        events := .acquireFileLock fileName true :: evs
        outcome := .propagated .other }

/-! ## Sequences of calls -/

/-- A call of one of the two lock functions. -/
inductive LockCall where
  | acquire (fileName : String)
  | release (fileName : String)
  deriving DecidableEq, Repr

/-- A call of one of the three functions.  An upload carries the behaviour of
its collaborators at the time of the call. -/
inductive Call where
  | lock (c : LockCall)
  | upload (env : Env) (fileName : String)

/-- The table after one lock call. -/
def stepLockCall (t : LockTable) : LockCall → LockTable
  | .acquire f => (acquireFileLock t f).2
  | .release f => releaseFileLock t f

/-- The table after a sequence of lock calls, executed from left to right. -/
def runLockCalls (t : LockTable) (cs : List LockCall) : LockTable :=
  cs.foldl stepLockCall t

/-- The table after one call. -/
def stepCall (t : LockTable) : Call → LockTable
  | .lock c => stepLockCall t c
  | .upload env f => UploadResult.table ( uploadFileToMinIO env t f)

/-- The table after a sequence of calls, executed from left to right. -/
def runCalls (t : LockTable) (cs : List Call) : LockTable :=
  cs.foldl stepCall t

/-! ## Sample collaborators, used to evaluate the definitions -/

/-- A file system with the single file `//a.txt` of three bytes; the client
constructs and `put_object` returns. -/
def sampleEnv : Env where
  openFile := fun p => if p = "//a.txt" then some [104, 105, 10] else none
  newClient := fun _ _ _ => .ok ()
  putObject := fun _ _ _ _ => .ok ()

/-- As `sampleEnv`, but the constructor of the client throws a
`std::exception`. -/
def noClientEnv : Env where
  openFile := fun p => if p = "//a.txt" then some [104, 105, 10] else none
  newClient := fun _ _ _ => .error (.stdException "invalid endpoint")
  putObject := fun _ _ _ _ => .ok ()

/-! ## Lemmas on the lock table -/

namespace LockTable

theorem find_set_self (t : LockTable) (k : String) (v : Bool) :
    (t.set k v).find k = (t.find k).map (fun _ => v) := by
  induction t with
  | nil => rfl
  | cons p rest ih =>
    obtain ⟨k', v'⟩ := p
    by_cases h : k' = k
    · simp [set, find, h]
    · simp [set, find, h, ih]

theorem find_set_ne (t : LockTable) {k g : String} (v : Bool) (h : g ≠ k) :
    (t.set k v).find g = t.find g := by
  induction t with
  | nil => rfl
  | cons p rest ih =>
    obtain ⟨k', v'⟩ := p
    by_cases hk : k' = k
    · subst hk
      have hg : ¬ k' = g := fun e => h e.symm
      simp [set, find, hg]
    · by_cases hg : k' = g
      · subst hg
        simp [set, find, hk]
      · simp [set, find, hk, hg, ih]

theorem find_append_single (t : LockTable) (k g : String) (v : Bool) :
    find (t ++ [(k, v)]) g = (t.find g).orElse (fun _ => if k = g then some v else none) := by
  induction t with
  | nil => simp [find]
  | cons p rest ih =>
    obtain ⟨k', v'⟩ := p
    by_cases hg : k' = g
    · simp [find, hg]
    · simp only [List.cons_append, find, hg, if_false]
      exact ih

theorem index_of_find_some {t : LockTable} {k : String} {v : Bool} (h : t.find k = some v) :
    t.index k = (t, v) := by
  simp [index, h]

theorem index_of_find_none {t : LockTable} {k : String} (h : t.find k = none) :
    t.index k = (t ++ [(k, false)], false) := by
  simp [index, h]

theorem find_index_self (t : LockTable) (k : String) :
    (t.index k).1.find k = some (t.index k).2 := by
  cases h : t.find k with
  | some v => simp [index, h]
  | none => simp [index, h, find_append_single]

theorem find_index_ne (t : LockTable) {k g : String} (h : g ≠ k) :
    (t.index k).1.find g = t.find g := by
  cases hk : t.find k with
  | some v => simp [index, hk]
  | none =>
    have : ¬ k = g := fun e => h e.symm
    cases hg : t.find g <;> simp [index, hk, find_append_single, this, hg]

theorem index_snd (t : LockTable) (k : String) :
    (t.index k).2 = (t.find k).getD false := by
  cases h : t.find k <;> simp [index, h]

theorem find_assign_self (t : LockTable) (k : String) (v : Bool) :
    (t.assign k v).find k = some v := by
  simp [assign, find_set_self, find_index_self]

theorem find_assign_ne (t : LockTable) {k g : String} (v : Bool) (h : g ≠ k) :
    (t.assign k v).find g = t.find g := by
  simp [assign, find_set_ne _ v h, find_index_ne t h]

theorem set_set (t : LockTable) (k : String) (v w : Bool) :
    (t.set k v).set k w = t.set k w := by
  induction t with
  | nil => rfl
  | cons p rest ih =>
    obtain ⟨k', v'⟩ := p
    by_cases h : k' = k
    · simp [set, h]
    · simp [set, h, ih]

theorem keys_set (t : LockTable) (k : String) (v : Bool) : (t.set k v).keys = t.keys := by
  induction t with
  | nil => rfl
  | cons p rest ih =>
    obtain ⟨k', v'⟩ := p
    by_cases h : k' = k
    · simp [set, keys, h]
    · simp only [set, h, if_false, keys, List.map_cons, List.cons.injEq, true_and]
      exact ih

theorem find_eq_none_iff (t : LockTable) (k : String) : t.find k = none ↔ k ∉ t.keys := by
  induction t with
  | nil => simp [find, keys]
  | cons p rest ih =>
    obtain ⟨k', v'⟩ := p
    by_cases h : k' = k
    · simp [find, keys, h]
    · have h' : ¬ k = k' := fun e => h e.symm
      simp only [find, h, if_false, ih, keys, List.map_cons, List.mem_cons, h', false_or]

theorem index_fst_of_mem {t : LockTable} {k : String} (h : k ∈ t.keys) : (t.index k).1 = t := by
  cases hf : t.find k with
  | some v => simp [index, hf]
  | none => exact absurd h ((find_eq_none_iff t k).1 hf)

theorem mem_keys_index (t : LockTable) (k : String) : k ∈ (t.index k).1.keys := by
  by_contra h
  have := (find_eq_none_iff _ _).2 h
  rw [find_index_self] at this
  exact Option.noConfusion this

theorem wf_index {t : LockTable} (h : t.WF) (k : String) : (t.index k).1.WF := by
  cases hf : t.find k with
  | some v => simpa [index, hf] using h
  | none =>
    have hk : k ∉ t.keys := (find_eq_none_iff t k).1 hf
    simp only [index, hf, WF, keys, List.map_append, List.map_cons, List.map_nil]
    refine List.Nodup.append h (List.nodup_singleton k) ?_
    intro a ha hak
    rw [List.mem_singleton] at hak
    exact hk (hak ▸ ha)

theorem wf_assign {t : LockTable} (h : t.WF) (k : String) (v : Bool) : (t.assign k v).WF := by
  unfold assign WF
  rw [keys_set]
  exact wf_index h k

end LockTable

/-! ## Lemmas on `acquireFileLock` and `releaseFileLock` -/

theorem isLocked_iff (t : LockTable) (f : String) : isLocked t f = true ↔ t.find f = some true := by
  unfold isLocked
  cases h : t.find f with
  | none => simp
  | some v => cases v <;> simp

theorem isFree_iff (t : LockTable) (f : String) : isFree t f ↔ isLocked t f = false := by
  unfold isFree isLocked
  cases h : t.find f with
  | none => simp
  | some v => cases v <;> simp

theorem isLocked_congr {t u : LockTable} {f : String} (h : u.find f = t.find f) :
    isLocked u f = isLocked t f := by
  unfold isLocked
  rw [h]

theorem index_snd_eq_isLocked (t : LockTable) (f : String) : (t.index f).2 = isLocked t f := by
  rw [LockTable.index_snd]
  unfold isLocked
  cases h : t.find f with
  | none => rfl
  | some v => cases v <;> rfl

theorem acquireFileLock_eq (t : LockTable) (f : String) :
    acquireFileLock t f =
      if (t.index f).2 = true then (false, (t.index f).1)
      else (true, (t.index f).1.assign f true) := rfl

theorem acquireFileLock_fst (t : LockTable) (f : String) :
    (acquireFileLock t f).1 = !isLocked t f := by
  unfold acquireFileLock
  simp only [index_snd_eq_isLocked]
  cases isLocked t f <;> simp

theorem acquireFileLock_of_locked {t : LockTable} {f : String} (h : isLocked t f = true) :
    acquireFileLock t f = (false, t) := by
  have hf := (isLocked_iff t f).1 h
  simp [acquireFileLock, LockTable.index_of_find_some hf]

theorem find_acquireFileLock_self (t : LockTable) (f : String) :
    (acquireFileLock t f).2.find f = some true := by
  rw [acquireFileLock_eq]
  by_cases h : (t.index f).2 = true
  · rw [if_pos h]
    have := LockTable.find_index_self t f
    rwa [h] at this
  · rw [if_neg h]
    exact LockTable.find_assign_self _ f true

theorem find_acquireFileLock_ne (t : LockTable) {f g : String} (h : g ≠ f) :
    (acquireFileLock t f).2.find g = t.find g := by
  rw [acquireFileLock_eq]
  by_cases hv : (t.index f).2 = true
  · rw [if_pos hv]
    exact LockTable.find_index_ne t h
  · rw [if_neg hv]
    exact (LockTable.find_assign_ne _ true h).trans (LockTable.find_index_ne t h)

theorem find_releaseFileLock_self (t : LockTable) (f : String) :
    (releaseFileLock t f).find f = some false :=
  LockTable.find_assign_self t f false

theorem find_releaseFileLock_ne (t : LockTable) {f g : String} (h : g ≠ f) :
    (releaseFileLock t f).find g = t.find g :=
  LockTable.find_assign_ne t false h

theorem wf_acquireFileLock {t : LockTable} (h : t.WF) (f : String) : (acquireFileLock t f).2.WF := by
  rw [acquireFileLock_eq]
  by_cases hv : (t.index f).2 = true
  · rw [if_pos hv]
    exact LockTable.wf_index h f
  · rw [if_neg hv]
    exact LockTable.wf_assign (LockTable.wf_index h f) f true

theorem wf_releaseFileLock {t : LockTable} (h : t.WF) (f : String) : (releaseFileLock t f).WF :=
  LockTable.wf_assign h f false

/-! ## Lemmas on `uploadFileToMinIO` -/

theorem upload_of_locked (env : Env) {t : LockTable} {f : String} (h : isLocked t f = true) :
    uploadFileToMinIO env t f =
      { table := t
        events := [.acquireFileLock f false, .cerr ("Error: File " ++ f ++ " is already locked.")]
        outcome := .returned } := by
  simp [ uploadFileToMinIO, acquireFileLock_of_locked h]

theorem find_upload_ne (env : Env) (t : LockTable) {f g : String} (h : g ≠ f) :
    LockTable.find (UploadResult.table ( uploadFileToMinIO env t f)) g = t.find g := by
  unfold uploadFileToMinIO
  simp only
  split
  · exact find_acquireFileLock_ne t h
  · split
    · simp only [find_releaseFileLock_ne _ h, find_acquireFileLock_ne t h]
    · simp only [find_releaseFileLock_ne _ h, find_acquireFileLock_ne t h]
    · exact find_acquireFileLock_ne t h

theorem upload_outcome_of_free (env : Env) {t : LockTable} {f : String}
    (hl : isLocked t f = false) :
    (UploadResult.outcome ( uploadFileToMinIO env t f) = .returned ↔
      (uploadTryBlock env f).2 ≠ .error .other) ∧
    (UploadResult.outcome ( uploadFileToMinIO env t f) = .returned →
      UploadResult.table ( uploadFileToMinIO env t f)
        = releaseFileLock (acquireFileLock t f).2 f) := by
  have hacq : (acquireFileLock t f).1 = true := by
    rw [acquireFileLock_fst, hl]
    rfl
  unfold uploadFileToMinIO
  simp only [hacq]
  split
  · rename_i h
    exact absurd h (by simp)
  · split
    · rename_i evs heq
      simp [heq]
    · rename_i evs what heq
      simp [heq]
    · rename_i evs heq
      simp [heq]

theorem uploadTryBlock_of_not_open {env : Env} {f : String}
    (h : env.openFile (filePath f) = none) :
    (uploadTryBlock env f).2 = .error (.stdException ("Unable to open file " ++ filePath f)) := by
  simp [uploadTryBlock, h]

/-! ## Lemmas on sequences of calls -/

theorem stepLockCall_keeps_locked {t : LockTable} {f : String} (h : isLocked t f = true)
    {c : LockCall} (hc : c ≠ .release f) : isLocked (stepLockCall t c) f = true := by
  cases c with
  | acquire g =>
    by_cases hg : g = f
    · subst hg
      simpa [stepLockCall, acquireFileLock_of_locked h] using h
    · have hne : f ≠ g := fun e => hg e.symm
      simp only [stepLockCall]
      rw [isLocked_congr (find_acquireFileLock_ne t hne)]
      exact h
  | release g =>
    have hne : f ≠ g := fun e => hc (by rw [e])
    simp only [stepLockCall]
    rw [isLocked_congr (find_releaseFileLock_ne t hne)]
    exact h

theorem stepCall_keeps_locked {t : LockTable} {f : String} (h : isLocked t f = true)
    {c : Call} (hc : c ≠ .lock (.release f)) : isLocked (stepCall t c) f = true := by
  cases c with
  | lock c =>
    exact stepLockCall_keeps_locked h (fun e => hc (by rw [e]))
  | upload env g =>
    by_cases hg : g = f
    · subst hg
      simpa [stepCall, upload_of_locked env h] using h
    · have hne : f ≠ g := fun e => hg e.symm
      simp only [stepCall]
      rw [isLocked_congr (find_upload_ne env t hne)]
      exact h

theorem runLockCalls_keeps_locked (cs : List LockCall) {t : LockTable} {f : String}
    (h : isLocked t f = true) (hno : LockCall.release f ∉ cs) :
    isLocked (runLockCalls t cs) f = true := by
  induction cs generalizing t with
  | nil => exact h
  | cons c rest ih =>
    have hc : c ≠ .release f := fun e => hno (by simp [e])
    have hrest : LockCall.release f ∉ rest := fun m => hno (List.mem_cons_of_mem _ m)
    exact ih (stepLockCall_keeps_locked h hc) hrest

theorem runCalls_keeps_locked (cs : List Call) {t : LockTable} {f : String}
    (h : isLocked t f = true) (hno : Call.lock (.release f) ∉ cs) :
    isLocked (runCalls t cs) f = true := by
  induction cs generalizing t with
  | nil => exact h
  | cons c rest ih =>
    have hc : c ≠ .lock (.release f) := fun e => hno (by simp [e])
    have hrest : Call.lock (.release f) ∉ rest := fun m => hno (List.mem_cons_of_mem _ m)
    exact ih (stepCall_keeps_locked h hc) hrest

/-! ## Every reachable table has distinct keys -/

theorem wf_empty : LockTable.empty.WF := List.nodup_nil

theorem wf_upload (env : Env) {t : LockTable} (h : t.WF) (f : String) :
    LockTable.WF (UploadResult.table ( uploadFileToMinIO env t f)) := by
  unfold uploadFileToMinIO
  simp only
  split
  · exact wf_acquireFileLock h f
  · split
    · exact wf_releaseFileLock (wf_acquireFileLock h f) f
    · exact wf_releaseFileLock (wf_acquireFileLock h f) f
    · exact wf_acquireFileLock h f

theorem wf_stepLockCall {t : LockTable} (h : t.WF) (c : LockCall) : (stepLockCall t c).WF := by
  cases c with
  | acquire f => exact wf_acquireFileLock h f
  | release f => exact wf_releaseFileLock h f

theorem wf_stepCall {t : LockTable} (h : t.WF) (c : Call) : (stepCall t c).WF := by
  cases c with
  | lock c => exact wf_stepLockCall h c
  | upload env f => exact wf_upload env h f

theorem wf_runLockCalls (cs : List LockCall) {t : LockTable} (h : t.WF) :
    (runLockCalls t cs).WF := by
  induction cs generalizing t with
  | nil => exact h
  | cons c rest ih => exact ih (wf_stepLockCall h c)

theorem wf_runCalls (cs : List Call) {t : LockTable} (h : t.WF) : (runCalls t cs).WF := by
  induction cs generalizing t with
  | nil => exact h
  | cons c rest ih => exact ih (wf_stepCall h c)

/-! ## A grant, a release and the next grant -/

theorem index_index (t : LockTable) (f : String) : ((t.index f).1.index f).1 = (t.index f).1 :=
  LockTable.index_fst_of_mem (LockTable.mem_keys_index t f)

theorem acquireFileLock_of_free {t : LockTable} {f : String} (h : isLocked t f = false) :
    acquireFileLock t f = (true, (t.index f).1.set f true) := by
  rw [acquireFileLock_eq, index_snd_eq_isLocked, h]
  simp [LockTable.assign, index_index]

theorem releaseFileLock_set (t : LockTable) (f : String) (v : Bool) :
    releaseFileLock (LockTable.set (t.index f).1 f v) f = LockTable.set (t.index f).1 f false := by
  have hm : f ∈ LockTable.keys (LockTable.set (t.index f).1 f v) := by
    rw [LockTable.keys_set]
    exact LockTable.mem_keys_index t f
  unfold releaseFileLock LockTable.assign
  rw [LockTable.index_fst_of_mem hm, LockTable.set_set]

/-! ## The claims -/

/-- C1 (mutual exclusion on one name): in every sequence of `acquireFileLock` /
`releaseFileLock` calls run from the empty table, if a call `acquireFileLock(f)`
returns true after the calls `pre`, and a later call `acquireFileLock(f)`, made
after the further calls `mid`, returns true as well, then `mid` contains a call
`releaseFileLock(f)`. -/
theorem mutual_exclusion_on_one_name (pre mid : List LockCall) (f : String)
    (_h1 : (acquireFileLock (runLockCalls LockTable.empty pre) f).1 = true)
    (h2 : (acquireFileLock
            (runLockCalls (acquireFileLock (runLockCalls LockTable.empty pre) f).2 mid) f).1
          = true) :
    LockCall.release f ∈ mid := by
  by_contra hno
  have hl : isLocked (acquireFileLock (runLockCalls LockTable.empty pre) f).2 f = true :=
    (isLocked_iff _ _).2 (find_acquireFileLock_self _ f)
  have hk := runLockCalls_keeps_locked mid hl hno
  rw [acquireFileLock_fst, hk] at h2
  exact Bool.noConfusion h2

/-- Witness of C1: acquire a, acquire b, release a, acquire b (refused), then
acquire a again. -/
theorem mutual_exclusion_on_one_name_witness :
    LockCall.release "a" ∈ [LockCall.acquire "b", LockCall.release "a", LockCall.acquire "b"] :=
  mutual_exclusion_on_one_name [] [.acquire "b", .release "a", .acquire "b"] "a"
    (by decide) (by decide)

/-- C2: `acquireFileLock(f)` returns true exactly when `f` is free beforehand (no
entry, or an entry that is false), and after a call that returned true the entry
of `f` is true. -/
theorem acquireFileLock_true_iff_free (t : LockTable) (f : String) :
    ((acquireFileLock t f).1 = true ↔ isFree t f) ∧
    ((acquireFileLock t f).1 = true →
      LockTable.find (acquireFileLock t f).2 f = some true ∧
      isLocked (acquireFileLock t f).2 f = true) := by
  refine ⟨?_, fun _ => ⟨find_acquireFileLock_self t f, (isLocked_iff _ _).2 (find_acquireFileLock_self t f)⟩⟩
  rw [acquireFileLock_fst, isFree_iff]
  cases isLocked t f <;> simp

/-- C3: when `f` is locked, `acquireFileLock(f)` returns false and the table after
the call is the table before it, entry for entry. -/
theorem acquireFileLock_refused_leaves_table (t : LockTable) (f : String)
    (h : isLocked t f = true) : acquireFileLock t f = (false, t) :=
  acquireFileLock_of_locked h

/-- Witness of C3: a table in which `a` is locked and `b` has a false entry. -/
theorem acquireFileLock_refused_leaves_table_witness :
    acquireFileLock [("b", false), ("a", true)] "a" = (false, [("b", false), ("a", true)]) :=
  acquireFileLock_refused_leaves_table [("b", false), ("a", true)] "a" (by decide)

/-- C4: whatever the table holds for `f`, after `releaseFileLock(f)` the name is
free (its entry is false) and an `acquireFileLock(f)` made next returns true. -/
theorem release_then_acquire_succeeds (t : LockTable) (f : String) :
    LockTable.find (releaseFileLock t f) f = some false ∧
    isFree (releaseFileLock t f) f ∧
    (acquireFileLock (releaseFileLock t f) f).1 = true := by
  have hf := find_releaseFileLock_self t f
  have hfree : isFree (releaseFileLock t f) f := Or.inr hf
  refine ⟨hf, hfree, ?_⟩
  rw [acquireFileLock_fst, (isFree_iff _ _).1 hfree]
  rfl

/-- C10: for distinct names `f` and `g`, neither `acquireFileLock(f)` nor
`releaseFileLock(f)` changes the entry of `g` or whether `g` is locked, and an
`acquireFileLock(g)` made next returns what it would have returned without the
call on `f`. -/
theorem locks_on_distinct_names_independent (t : LockTable) (f g : String) (hfg : f ≠ g) :
    LockTable.find (acquireFileLock t f).2 g = t.find g ∧
    LockTable.find (releaseFileLock t f) g = t.find g ∧
    isLocked (acquireFileLock t f).2 g = isLocked t g ∧
    isLocked (releaseFileLock t f) g = isLocked t g ∧
    (acquireFileLock (acquireFileLock t f).2 g).1 = (acquireFileLock t g).1 ∧
    (acquireFileLock (releaseFileLock t f) g).1 = (acquireFileLock t g).1 := by
  have hne : g ≠ f := fun e => hfg e.symm
  have ha := find_acquireFileLock_ne t hne
  have hr := find_releaseFileLock_ne t hne
  refine ⟨ha, hr, isLocked_congr ha, isLocked_congr hr, ?_, ?_⟩
  · rw [acquireFileLock_fst, acquireFileLock_fst, isLocked_congr ha]
  · rw [acquireFileLock_fst, acquireFileLock_fst, isLocked_congr hr]

/-- Witness of C10: `a` is locked, `b` is free; calls on `a` do not change `b`,
and calls on `b` do not change `a`. -/
theorem locks_on_distinct_names_independent_witness :
    LockTable.find (acquireFileLock [("a", true)] "b").2 "a" = LockTable.find [("a", true)] "a" ∧
    LockTable.find (releaseFileLock [("a", true)] "b") "a" = LockTable.find [("a", true)] "a" ∧
    isLocked (acquireFileLock [("a", true)] "b").2 "a" = isLocked [("a", true)] "a" ∧
    isLocked (releaseFileLock [("a", true)] "b") "a" = isLocked [("a", true)] "a" ∧
    (acquireFileLock (acquireFileLock [("a", true)] "b").2 "a").1
      = (acquireFileLock [("a", true)] "a").1 ∧
    (acquireFileLock (releaseFileLock [("a", true)] "b") "a").1
      = (acquireFileLock [("a", true)] "a").1 :=
  locks_on_distinct_names_independent [("a", true)] "b" "a" (by decide)

/-- C5, as stated, fails: with `a.txt` free and the file `//a.txt` opened and
read, the constructor of the client throws, the handler at line 77 runs, and
`put_object` is called zero times. -/
theorem put_object_skipped_when_client_throws :
    ¬ ∀ (env : Env) (t : LockTable) (f : String) (data : Bytes),
        isFree t f → env.openFile ("//" ++ f) = some data →
        List.filter Event.isPutObject (UploadResult.events ( uploadFileToMinIO env t f))
          = [Event.putObject "bucket-name" f data data.length] := by
  intro h
  have := h noClientEnv [] "a.txt" [104, 105, 10] (by decide) (by decide)
  revert this
  decide

/-- C5, amended: when `f` is free, the file at `LUSTRE_MOUNT_POINT + "/" + f`
(that is `"//" + f`) opens with content `data`, and the constructor of the client
returns, `uploadFileToMinIO(f)` calls `put_object` exactly once, with bucket
`S3_BUCKET_NAME` (`"bucket-name"`), key `f`, the bytes `data` and size
`data.length`. -/
theorem upload_put_object_once (env : Env) (t : LockTable) (f : String) (data : Bytes)
    (hfree : isFree t f) (hopen : env.openFile ("//" ++ f) = some data)
    (hclient : env.newClient MINIO_ENDPOINT MINIO_ACCESS_KEY MINIO_SECRET_KEY = .ok ()) :
    filePath f = "//" ++ f ∧
    S3_BUCKET_NAME = "bucket-name" ∧
    List.filter Event.isPutObject (UploadResult.events ( uploadFileToMinIO env t f))
      = [Event.putObject S3_BUCKET_NAME f data data.length] := by
  have hpath : filePath f = "//" ++ f := rfl
  refine ⟨hpath, rfl, ?_⟩
  have hacq : acquireFileLock t f = (true, (t.index f).1.set f true) :=
    acquireFileLock_of_free ((isFree_iff t f).1 hfree)
  have hopen2 : env.openFile (filePath f) = some data := by rw [hpath]; exact hopen
  unfold uploadFileToMinIO uploadTryBlock
  simp only [hacq, hopen2, hclient]
  cases hp : env.putObject S3_BUCKET_NAME f data data.length with
  | error e =>
    cases e with
    | stdException w => simp [List.filter, Event.isPutObject]
    | other => simp [List.filter, Event.isPutObject]
  | ok u =>
    cases u
    simp [List.filter, Event.isPutObject]

/-- Witness of C5 (amended): the three bytes of `//a.txt` are pushed under the
key `a.txt`. -/
theorem upload_put_object_once_witness :
    filePath "a.txt" = "//" ++ "a.txt" ∧
    S3_BUCKET_NAME = "bucket-name" ∧
    List.filter Event.isPutObject (UploadResult.events ( uploadFileToMinIO sampleEnv [] "a.txt"))
      = [Event.putObject S3_BUCKET_NAME "a.txt" [104, 105, 10] 3] :=
  upload_put_object_once sampleEnv [] "a.txt" [104, 105, 10] (by decide) (by decide) rfl

/-- C6, as stated, fails: a grant produces nothing but the returned `true` and the
table, and on `reportX` the grant after a release produces exactly what the grant
before it produced, so no token read off a grant is strictly greater on the
second one. -/
theorem grant_after_release_yields_no_greater_token :
    ¬ ∃ token : Bool × LockTable → Nat,
        token (acquireFileLock LockTable.empty "reportX") <
        token (acquireFileLock
          (releaseFileLock (acquireFileLock LockTable.empty "reportX").2 "reportX") "reportX") := by
  rintro ⟨token, h⟩
  have e : acquireFileLock
      (releaseFileLock (acquireFileLock LockTable.empty "reportX").2 "reportX") "reportX"
      = acquireFileLock LockTable.empty "reportX" := by decide
  rw [e] at h
  exact lt_irrefl _ h

/-- C6, amended: `acquireFileLock` issues no token.  A grant returns `true` and
leaves the entry of `f` true, and when `f` is free a `releaseFileLock(f)` followed
at once by `acquireFileLock(f)` returns the same value and leaves the same table
as the grant before the release. -/
theorem regrant_equals_grant (t : LockTable) (f : String) (hfree : isFree t f) :
    (acquireFileLock t f).1 = true ∧
    LockTable.find (acquireFileLock t f).2 f = some true ∧
    acquireFileLock (releaseFileLock (acquireFileLock t f).2 f) f = acquireFileLock t f := by
  have hacq : acquireFileLock t f = (true, (t.index f).1.set f true) :=
    acquireFileLock_of_free ((isFree_iff t f).1 hfree)
  refine ⟨by rw [hacq], find_acquireFileLock_self t f, ?_⟩
  rw [hacq]
  simp only
  rw [releaseFileLock_set]
  have hm : f ∈ LockTable.keys (LockTable.set (t.index f).1 f false) := by
    rw [LockTable.keys_set]
    exact LockTable.mem_keys_index t f
  have hfind : LockTable.find (LockTable.set (t.index f).1 f false) f = some false := by
    rw [LockTable.find_set_self, LockTable.find_index_self]
    rfl
  have hl : isLocked (LockTable.set (t.index f).1 f false) f = false := by
    unfold isLocked
    rw [hfind]
  rw [acquireFileLock_of_free hl, LockTable.index_fst_of_mem hm, LockTable.set_set]

/-- Witness of C6 (amended): `reportX` is granted, released and granted again
next to a locked `other`. -/
theorem regrant_equals_grant_witness :
    (acquireFileLock [("other", true)] "reportX").1 = true ∧
    LockTable.find (acquireFileLock [("other", true)] "reportX").2 "reportX" = some true ∧
    acquireFileLock
      (releaseFileLock (acquireFileLock [("other", true)] "reportX").2 "reportX") "reportX"
      = acquireFileLock [("other", true)] "reportX" :=
  regrant_equals_grant [("other", true)] "reportX" (by decide)

/-- C7: after a successful `acquireFileLock(f)`, along every sequence of
`acquireFileLock` / `releaseFileLock` / `uploadFileToMinIO` calls that contains no
`releaseFileLock(f)`, `f` is locked after every prefix of the sequence, and every
`acquireFileLock(f)` of the sequence returns false. -/
theorem lock_held_until_released (t : LockTable) (f : String) (cs : List Call)
    (_hacq : (acquireFileLock t f).1 = true)
    (hno : Call.lock (.release f) ∉ cs) :
    (∀ pre post, cs = pre ++ post →
      isLocked (runCalls (acquireFileLock t f).2 pre) f = true) ∧
    (∀ pre post, cs = pre ++ Call.lock (.acquire f) :: post →
      (acquireFileLock (runCalls (acquireFileLock t f).2 pre) f).1 = false) := by
  have hl : isLocked (acquireFileLock t f).2 f = true :=
    (isLocked_iff _ _).2 (find_acquireFileLock_self t f)
  have key : ∀ pre post, cs = pre ++ post →
      isLocked (runCalls (acquireFileLock t f).2 pre) f = true := by
    intro pre post hcs
    refine runCalls_keeps_locked pre hl (fun m => hno ?_)
    rw [hcs]
    exact List.mem_append_left _ m
  refine ⟨key, ?_⟩
  intro pre post hcs
  rw [acquireFileLock_fst, key pre _ hcs]
  rfl

/-- Witness of C7: with `a.txt` held, an upload of `a.txt`, an upload of `b.txt`,
a release of `b.txt` and a second acquire of `a.txt` leave `a.txt` locked. -/
theorem lock_held_until_released_witness :
    (∀ pre post,
      [Call.upload sampleEnv "a.txt", Call.upload noClientEnv "b.txt",
        Call.lock (.release "b.txt"), Call.lock (.acquire "a.txt")] = pre ++ post →
      isLocked (runCalls (acquireFileLock [] "a.txt").2 pre) "a.txt" = true) ∧
    (∀ pre post,
      [Call.upload sampleEnv "a.txt", Call.upload noClientEnv "b.txt",
        Call.lock (.release "b.txt"), Call.lock (.acquire "a.txt")]
        = pre ++ Call.lock (.acquire "a.txt") :: post →
      (acquireFileLock (runCalls (acquireFileLock [] "a.txt").2 pre) "a.txt").1 = false) :=
  lock_held_until_released [] "a.txt"
    [Call.upload sampleEnv "a.txt", Call.upload noClientEnv "b.txt",
      Call.lock (.release "b.txt"), Call.lock (.acquire "a.txt")]
    (by decide) (by simp)

/-- C8: whenever `uploadFileToMinIO(f)` returns, every name `g`, `f` included, is
locked afterwards exactly when it was locked before the call, so a name that was
free is free again even when the upload failed.  The call does return in each of
the four outcomes: `f` already locked, the `try` block completed, the file could
not be opened, a `std::exception` was thrown inside the `try` block. -/
theorem upload_restores_locks (env : Env) (t : LockTable) (f : String) :
    (UploadResult.outcome ( uploadFileToMinIO env t f) = .returned →
      ∀ g, isLocked (UploadResult.table ( uploadFileToMinIO env t f)) g = isLocked t g) ∧
    (isLocked t f = true → UploadResult.outcome ( uploadFileToMinIO env t f) = .returned) ∧
    ((uploadTryBlock env f).2 = .ok () →
      UploadResult.outcome ( uploadFileToMinIO env t f) = .returned) ∧
    (env.openFile (filePath f) = none →
      UploadResult.outcome ( uploadFileToMinIO env t f) = .returned) ∧
    (∀ what, (uploadTryBlock env f).2 = .error (.stdException what) →
      UploadResult.outcome ( uploadFileToMinIO env t f) = .returned) := by
  cases hl : isLocked t f with
  | true =>
    rw [upload_of_locked env hl]
    exact ⟨fun _ _ => rfl, fun _ => rfl, fun _ => rfl, fun _ => rfl, fun _ _ => rfl⟩
  | false =>
    obtain ⟨hiff, htable⟩ := upload_outcome_of_free env hl
    have hstd : ∀ what, (uploadTryBlock env f).2 = .error (.stdException what) →
        UploadResult.outcome ( uploadFileToMinIO env t f) = .returned := by
      intro what h
      refine hiff.2 ?_
      rw [h]
      intro e
      cases e
    refine ⟨?_, fun h => Bool.noConfusion h, ?_, ?_, hstd⟩
    · intro hret g
      rw [htable hret]
      by_cases hg : g = f
      · subst hg
        rw [hl]
        unfold isLocked
        rw [find_releaseFileLock_self]
      · apply isLocked_congr
        rw [find_releaseFileLock_ne _ hg, find_acquireFileLock_ne t hg]
    · intro h
      refine hiff.2 ?_
      rw [h]
      intro e
      cases e
    · intro h
      exact hstd _ (uploadTryBlock_of_not_open h)

/-- Witness of C8: the file `//b.txt` cannot be opened; the upload returns and
leaves `b.txt` free and `a.txt` locked. -/
theorem upload_restores_locks_witness :
    UploadResult.outcome ( uploadFileToMinIO sampleEnv [("a.txt", true)] "b.txt") = .returned ∧
    ∀ g, isLocked (UploadResult.table ( uploadFileToMinIO sampleEnv [("a.txt", true)] "b.txt")) g
      = isLocked [("a.txt", true)] g :=
  ⟨by decide, (upload_restores_locks sampleEnv [("a.txt", true)] "b.txt").1 (by decide)⟩

/-- C9: when `f` is locked, `uploadFileToMinIO(f)` makes the refused
`acquireFileLock(f)` call, writes `Error: File <f> is already locked.` to
`std::cerr` and returns; it opens no file, constructs no client, calls neither
`put_object` nor `releaseFileLock`, and leaves the table as it was. -/
theorem upload_on_locked_only_reports (env : Env) (t : LockTable) (f : String)
    (h : isLocked t f = true) :
    UploadResult.events ( uploadFileToMinIO env t f)
      = [.acquireFileLock f false, .cerr ("Error: File " ++ f ++ " is already locked.")] ∧
    UploadResult.outcome ( uploadFileToMinIO env t f) = .returned ∧
    UploadResult.table ( uploadFileToMinIO env t f) = t ∧
    ∀ e ∈ UploadResult.events ( uploadFileToMinIO env t f),
      e.isOpenFile = false ∧ e.isNewClient = false ∧ e.isPutObject = false ∧
      e.isReleaseFileLock = false := by
  rw [upload_of_locked env h]
  refine ⟨rfl, rfl, rfl, ?_⟩
  intro e he
  simp only [List.mem_cons, List.mem_singleton, List.not_mem_nil, or_false] at he
  rcases he with rfl | rfl <;> exact ⟨rfl, rfl, rfl, rfl⟩

/-- Witness of C9: `a.txt` is locked and its file exists; the upload only
reports. -/
theorem upload_on_locked_only_reports_witness :
    UploadResult.events ( uploadFileToMinIO sampleEnv [("a.txt", true)] "a.txt")
      = [.acquireFileLock "a.txt" false, .cerr ("Error: File " ++ "a.txt" ++ " is already locked.")] ∧
    UploadResult.outcome ( uploadFileToMinIO sampleEnv [("a.txt", true)] "a.txt") = .returned ∧
    UploadResult.table ( uploadFileToMinIO sampleEnv [("a.txt", true)] "a.txt") = [("a.txt", true)] ∧
    ∀ e ∈ UploadResult.events ( uploadFileToMinIO sampleEnv [("a.txt", true)] "a.txt"),
      e.isOpenFile = false ∧ e.isNewClient = false ∧ e.isPutObject = false ∧
      e.isReleaseFileLock = false :=
  upload_on_locked_only_reports sampleEnv [("a.txt", true)] "a.txt" (by decide)

end LustreMinioGateway
